import Mathlib

/-!
Verification development for `config_loader.py`: YAML-backed configuration
loading and asset validation for a character/background/font resource tree.

The Python module is embedded shallowly:

* Parsed YAML scalars and containers are modelled by the inductive `PyVal`
  (integers, strings, None, lists, string-keyed dicts).  YAML booleans and
  floats do not occur in any configuration this module reads and are omitted.
* The filesystem is an oracle `AssetsFS` recording exactly the queries the
  scanners make: the directory listings of `background`, `chara`,
  `chara/<role>` (with `none` standing for "directory does not exist"),
  which entries of `chara` are subdirectories, and which font files exist.
* The regular expressions of the scanners are implemented directly as
  character-list parsers (`parseBgName`, `parseRoleDiff`).
* Report message strings are modelled structurally: each `f"..."` append in
  the source becomes one constructor of `Msg` carrying the interpolated
  payload.  The payload lists are exactly the `sorted(...)` lists the
  source embeds into the string.
* `int(x)` can raise `ValueError`/`TypeError` in Python, so value coercion
  is `pyInt : PyVal → Option Int` and `validate_assets` runs in
  `Except Unit` (the exception payload is irrelevant to the claims).
* Character metadata entries (`meta[role]`) are modelled by `RoleMeta`:
  `validate_assets` only ever reads the keys `emotion_count` and `font`
  of a role dict, and the data model declares `font` a string, so the
  `font` field is `Option String` (absent key → `None`, printed `"None"`
  by `str()`); `emotion_count` stays a full `PyVal` since the code applies
  `int()` to it.
-/

set_option autoImplicit false

namespace ConfigLoader

/-- Sorting a multiset into an ascending list, by insertion sort lifted to
the quotient.  This is the executable model of Python's `sorted(...)`; it
agrees with Mathlib's `Finset.sort` (`msort_eq_sort` below) but, unlike
it, evaluates by kernel reduction. -/
def msort {α : Type} [LinearOrder α] (s : Multiset α) : List α :=
  Quotient.liftOn s (fun l => l.insertionSort (· ≤ ·)) (fun a b h =>
    List.eq_of_perm_of_sorted
      (((a.perm_insertionSort (· ≤ ·)).trans h).trans
        (b.perm_insertionSort (· ≤ ·)).symm)
      (List.sorted_insertionSort (· ≤ ·) a) (List.sorted_insertionSort (· ≤ ·) b))

/-- Python `sorted(<set>)`: the ascending list of elements of a finite set. -/
def sortedOf {α : Type} [LinearOrder α] (s : Finset α) : List α :=
  msort s.val

/-- Python `str.lower()` (ASCII case mapping; config keys are ASCII). -/
def pyLower (s : String) : String :=
  String.mk (s.data.map Char.toLower)

/-- Python `str.strip()`: remove leading and trailing whitespace. -/
def pyStrip (s : String) : String :=
  String.mk (((s.data.dropWhile Char.isWhitespace).reverse.dropWhile
    Char.isWhitespace).reverse)

/-- Parsed YAML values as produced by `yaml.safe_load` (scalars restricted
to the kinds this module manipulates). -/
inductive PyVal where
  | vint : Int → PyVal
  | vstr : String → PyVal
  | vnone : PyVal
  | vlist : List PyVal → PyVal
  | vdict : List (String × PyVal) → PyVal

/-- Python `int(s)` on a string: optional surrounding whitespace, optional
sign, then at least one digit.  (Digit-group underscores and non-ASCII
digits, which CPython also accepts, are not modelled; no configuration
key in this module uses them.) -/
def pyIntOfStr (s : String) : Option Int :=
  let cs := (pyStrip s).data
  match cs with
  | '-' :: rest =>
      if rest ≠ [] ∧ rest.all Char.isDigit then
        some (-(rest.foldl (fun a c => a * 10 + (c.toNat - 48)) 0 : Nat))
      else none
  | '+' :: rest =>
      if rest ≠ [] ∧ rest.all Char.isDigit then
        some ((rest.foldl (fun a c => a * 10 + (c.toNat - 48)) 0 : Nat))
      else none
  | _ =>
      if cs ≠ [] ∧ cs.all Char.isDigit then
        some ((cs.foldl (fun a c => a * 10 + (c.toNat - 48)) 0 : Nat))
      else none

/-- Python `int(v)`: identity on ints, string parsing on strings, and a
raised `TypeError` (here `none`) on `None`, lists and dicts. -/
def pyInt : PyVal → Option Int
  | .vint n => some n
  | .vstr s => pyIntOfStr s
  | _ => none

/-- Digit run to a natural number (regex groups are digits only, so the
`int(...)` around them cannot fail). -/
def digitsToNat (cs : List Char) : Nat :=
  cs.foldl (fun a c => a * 10 + (c.toNat - 48)) 0

/-- Case-insensitive match of the literal extension `.png` (the tail of
the scanners' regexes, under `re.IGNORECASE`). -/
def isPngExt : List Char → Bool
  | ['.', p, n, g] => p.toLower == 'p' && n.toLower == 'n' && g.toLower == 'g'
  | _ => false

/-- Regex of `_scan_backgrounds`: a filename matches
case-insensitive `c(\d+)\.png` anchored at both ends; the digit group is
returned as a number. -/
def parseBgName (name : String) : Option Nat :=
  match name.toList with
  | [] => none
  | c :: rest =>
      if c.toLower = 'c' then
        let ds := rest.takeWhile Char.isDigit
        if ds ≠ [] ∧ isPngExt (rest.dropWhile Char.isDigit) then
          some (digitsToNat ds)
        else none
      else none

/-- Case-insensitive literal match of `pat` at the front of `s`, returning
the remainder (the `re.escape(role)` part of the role-diff regex, matched
under `re.IGNORECASE`). -/
def dropLitCI : List Char → List Char → Option (List Char)
  | [], ys => some ys
  | _ :: _, [] => none
  | x :: xs, y :: ys => if x.toLower = y.toLower then dropLitCI xs ys else none

/-- Regex of `_scan_role_diffs`: a filename matches case-insensitive
`<role literally>\s*\((\d+)\)\.png` anchored at both ends; the digit group
is returned as a number. -/
def parseRoleDiff (role : String) (name : String) : Option Nat :=
  match dropLitCI role.toList name.toList with
  | none => none
  | some rest =>
      match rest.dropWhile Char.isWhitespace with
      | '(' :: rest2 =>
          let ds := rest2.takeWhile Char.isDigit
          match rest2.dropWhile Char.isDigit with
          | ')' :: rest3 =>
              if ds ≠ [] ∧ isPngExt rest3 then some (digitsToNat ds) else none
          | _ => none
      | _ => none

/-- Filesystem oracle: the directory listings and file-existence queries
the scanners and the font check perform.  `none` models a missing
directory (`os.path.isdir` false). -/
structure AssetsFS where
  background_listing : Option (List String)
  chara_listing : Option (List String)
  chara_entry_is_dir : String → Bool
  role_listing : String → Option (List String)
  font_isfile : String → Bool

/-- Embeds `_scan_backgrounds`: indices of files matching the background
regex in `background/`, as a set; missing directory gives the empty set. -/
def scan_backgrounds (fs : AssetsFS) : Finset Nat :=
  match fs.background_listing with
  | none => ∅
  | some names => (names.filterMap parseBgName).toFinset

/-- Embeds `_scan_roles_in_assets`: the set of entries of `chara/` that are
directories; missing directory gives the empty set. -/
def scan_roles_in_assets (fs : AssetsFS) : Finset String :=
  match fs.chara_listing with
  | none => ∅
  | some names => (names.filter fs.chara_entry_is_dir).toFinset

/-- Embeds `_scan_role_diffs`: indices of files matching the role-diff
regex in `chara/<role>/`; missing directory gives the empty set. -/
def scan_role_diffs (fs : AssetsFS) (role : String) : Finset Nat :=
  match fs.role_listing role with
  | none => ∅
  | some names => (names.filterMap (parseRoleDiff role)).toFinset

/-- One entry of the character metadata mapping (`meta[role]`), restricted
to the keys `validate_assets` reads.  `none` fields model absent keys. -/
structure RoleMeta where
  emotion_count : Option PyVal
  font : Option String
  full_name : Option String

/-- Character metadata: an insertion-ordered string-keyed mapping, as a
Python dict is (keys unique in any dict the runtime can build). -/
abbrev CharaMeta := List (String × RoleMeta)

/-- One parsed text-overlay entry as `load_text_configs` builds it. -/
structure TextEntry where
  text : PyVal
  position : Int × Int
  font_color : Int × Int × Int
  font_size : Int

/-- Text-overlay configuration: role → ordered entry list. -/
abbrev TextCfg := List (String × List TextEntry)

/-- Report messages, one constructor per message-building `append` in
`validate_assets`, carrying the interpolated payload:
missingBg = "缺少背景: <sorted list>", extraBg = "多余背景: <sorted list>",
missingRoleDirs = "缺少角色目录: <sorted list>",
extraRoles = "资产中存在未配置角色: <sorted list>",
missingFont = "缺少字体文件: <font>",
roleMissingDiffs = "角色 <role> 缺少差分: <sorted list>",
roleExtraDiffs = "角色 <role> 多余差分: <sorted list>",
textOnlyRoles = "文字配置存在未配置角色: <sorted list>",
charaOnlyRoles = "角色配置缺少文字配置: <sorted list>". -/
inductive Msg where
  | missingBg : List Nat → Msg
  | extraBg : List Nat → Msg
  | missingRoleDirs : List String → Msg
  | extraRoles : List String → Msg
  | missingFont : String → Msg
  | roleMissingDiffs : String → List Nat → Msg
  | roleExtraDiffs : String → List Nat → Msg
  | textOnlyRoles : List String → Msg
  | charaOnlyRoles : List String → Msg
deriving DecidableEq, Repr

/-- The `stats["backgrounds"]` sub-dict. -/
structure BgStats where
  found : Nat
deriving DecidableEq, Repr

/-- One `stats["roles"][role]` entry: `len(expected)` and `len(found)`. -/
structure RoleStat where
  expected : Nat
  found : Nat
deriving DecidableEq, Repr

/-- The `stats` dict of the report. -/
structure ReportStats where
  backgrounds : BgStats
  roles : List (String × RoleStat)
deriving DecidableEq, Repr

/-- The validation report returned by `validate_assets`. -/
structure Report where
  ok : Bool
  errors : List Msg
  warnings : List Msg
  stats : ReportStats
deriving DecidableEq, Repr

/-- Background block of `validate_assets` (lines 228-236): expected
indices 1..16, errors for sorted missing, warnings for sorted extra,
stats entry with the found count. -/
def bgCheck (fs : AssetsFS) : List Msg × List Msg × BgStats :=
  let bg_found := scan_backgrounds fs
  let expected_bg : Finset Nat := Finset.Icc 1 16
  let miss_bg := sortedOf (expected_bg \ bg_found)
  let extra_bg := sortedOf (bg_found \ expected_bg)
  ((if miss_bg ≠ [] then [Msg.missingBg miss_bg] else []),
   (if extra_bg ≠ [] then [Msg.extraBg extra_bg] else []),
   ⟨bg_found.card⟩)

/-- Role-directory block of `validate_assets` (lines 239-246): configured
roles against `chara/` subdirectories. -/
def roleDirCheck (meta : CharaMeta) (fs : AssetsFS) : List Msg × List Msg :=
  let cfg_roles := meta.map Prod.fst
  let assets_roles := scan_roles_in_assets fs
  let miss_roles := sortedOf (cfg_roles.toFinset \ assets_roles)
  let extra_roles := sortedOf (assets_roles \ cfg_roles.toFinset)
  ((if miss_roles ≠ [] then [Msg.missingRoleDirs miss_roles] else []),
   (if extra_roles ≠ [] then [Msg.extraRoles extra_roles] else []))

/-- Python `str()` of a font value that is either a string or an absent
key (`None`). -/
def fontStr : Option String → String
  | some s => s
  | none => "None"

/-- The deduplicated font set of line 249
(`\x7bmeta[r].get("font") for r in cfg_roles if isinstance(meta.get(r), dict)\x7d`);
every `meta[r]` is a dict in this model, so the guard is always true.
`List.dedup` models the Python set: same membership, one occurrence per
value; Python's hash-based iteration order is unspecified, and no claim
depends on which order is chosen. -/
def fontList (meta : CharaMeta) : List (Option String) :=
  (meta.map (fun p => p.2.font)).dedup

/-- Font block of `validate_assets` (lines 249-253): one error per
distinct font value whose file is missing. -/
def fontCheck (meta : CharaMeta) (fs : AssetsFS) : List Msg :=
  (fontList meta).filterMap (fun f =>
    if fs.font_isfile (fontStr f) then none else some (Msg.missingFont (fontStr f)))

/-- Line 257: `int(meta[role]["emotion_count"]) if "emotion_count" in
meta[role] else 0` — an absent key yields 0, a present key goes through
`int()`, which raises (`none`) on values it cannot coerce. -/
def ecOf (rm : RoleMeta) : Option Int :=
  match rm.emotion_count with
  | none => some 0
  | some v => pyInt v

/-- Differential block of `validate_assets` (lines 256-266), one loop
iteration per configured role in mapping order; a raising `int()` aborts
the whole call. -/
def diffCheck (fs : AssetsFS) :
    CharaMeta → Except Unit (List Msg × List Msg × List (String × RoleStat))
  | [] => .ok ([], [], [])
  | (role, rm) :: rest =>
      match ecOf rm with
      | none => .error ()
      | some ec =>
          let expected : Finset Nat := Finset.Icc 1 ec.toNat
          let found := scan_role_diffs fs role
          let miss := sortedOf (expected \ found)
          let extra := sortedOf (found \ expected)
          match diffCheck fs rest with
          | .error e => .error e
          | .ok (es, ws, sts) =>
              .ok ((if miss ≠ [] then [Msg.roleMissingDiffs role miss] else []) ++ es,
                   (if extra ≠ [] then [Msg.roleExtraDiffs role extra] else []) ++ ws,
                   (role, ⟨expected.card, found.card⟩) :: sts)

/-- Text-coverage block of `validate_assets` (lines 269-277): only runs
when the text-config mapping is supplied and non-empty (Python truthiness
of `text_cfg`); both directions are warnings. -/
def textCheck (meta : CharaMeta) (text_cfg : Option TextCfg) : List Msg :=
  match text_cfg with
  | none => []
  | some m =>
      if m.isEmpty then []
      else
        let text_roles := (m.map Prod.fst).toFinset
        let cfg_roles_set := (meta.map Prod.fst).toFinset
        let diff_a := sortedOf (text_roles \ cfg_roles_set)
        let diff_b := sortedOf (cfg_roles_set \ text_roles)
        (if diff_a ≠ [] then [Msg.textOnlyRoles diff_a] else []) ++
        (if diff_b ≠ [] then [Msg.charaOnlyRoles diff_b] else [])

/-- Embeds `validate_assets` (lines 222-280).  Message order follows the
source's append order: errors are background, role-directory, font, then
per-role differential; warnings are background, role-directory, per-role
differential, then text coverage.  `ok` is `len(errors) == 0`.  An
exception from `int()` in the differential loop propagates out. -/
def validate_assets (meta : CharaMeta) (text_cfg : Option TextCfg)
    (fs : AssetsFS) : Except Unit Report :=
  match diffCheck fs meta with
  | .error e => .error e
  | .ok d =>
      let errors := (bgCheck fs).1 ++ (roleDirCheck meta fs).1 ++
        fontCheck meta fs ++ d.1
      let warnings := (bgCheck fs).2.1 ++ (roleDirCheck meta fs).2 ++
        d.2.1 ++ textCheck meta text_cfg
      .ok ⟨errors.isEmpty, errors, warnings, ⟨(bgCheck fs).2.2, d.2.2⟩⟩

/-- Embeds `load_process_whitelist` (lines 154-167) applied to the parsed
whitelist document (`None` models every `_read_yaml` failure; an empty
dict is falsy like `None`).  The lower-cased OS name selects a list;
non-string or blank entries are dropped and the rest trimmed. -/
def load_process_whitelist (doc : Option PyVal) (os_name : String) : List String :=
  match doc with
  | some (.vdict m) =>
      if m.isEmpty then []
      else
        match m.lookup (pyLower os_name) with
        | some (.vlist items) =>
            items.filterMap (fun it =>
              match it with
              | .vstr s => if pyStrip s ≠ "" then some (pyStrip s) else none
              | _ => none)
        | _ => []
  | _ => []

/-- Lines 66-69 (`_to_tuple2`): a length-2 list of `int()`-coercible
values, else raise. -/
def toTuple2 : PyVal → Option (Int × Int)
  | .vlist [a, b] => do
      let x ← pyInt a
      let y ← pyInt b
      pure (x, y)
  | _ => none

/-- Lines 72-75 (`_to_tuple3`): a length-3 list of `int()`-coercible
values, else raise. -/
def toTuple3 : PyVal → Option (Int × Int × Int)
  | .vlist [a, b, c] => do
      let x ← pyInt a
      let y ← pyInt b
      let z ← pyInt c
      pure (x, y, z)
  | _ => none

/-- One iteration of the inner loop of `load_text_configs` (lines
129-148): the item must be a dict; `text` defaults to `""` and `None`
becomes `""`; `position`, `font_color`, `font_size` must coerce, else the
item is skipped. -/
def parseTextItem : PyVal → Option TextEntry
  | .vdict d => do
      let textv := match d.lookup "text" with
        | some .vnone => PyVal.vstr ""
        | some v => v
        | none => PyVal.vstr ""
      let position ← toTuple2 ((d.lookup "position").getD .vnone)
      let font_color ← toTuple3 ((d.lookup "font_color").getD .vnone)
      let font_size ← pyInt ((d.lookup "font_size").getD .vnone)
      pure ⟨textv, position, font_color, font_size⟩
  | _ => none

/-- The per-role loop of `load_text_configs` (lines 124-149): a role whose
value is a list is always entered into the result (with its parsed,
possibly empty, entry list); a role whose value is not a list is skipped. -/
def textCfgOfRoot : List (String × PyVal) → TextCfg
  | [] => []
  | (role, items) :: rest =>
      match items with
      | .vlist xs => (role, xs.filterMap parseTextItem) :: textCfgOfRoot rest
      | _ => textCfgOfRoot rest

/-- Embeds `load_text_configs` (lines 114-151) applied to the parsed
document: requires a non-empty dict with a dict under `text_configs`,
else the empty result. -/
def load_text_configs (doc : Option PyVal) : TextCfg :=
  match doc with
  | some (.vdict m) =>
      if m.isEmpty then []
      else
        match m.lookup "text_configs" with
        | some (.vdict root) => textCfgOfRoot root
        | _ => []
  | _ => []

/-- Recognizes the background-missing error line. -/
def isBgMissMsg : Msg → Bool
  | .missingBg _ => true
  | _ => false

/-- Recognizes the background-extra warning line. -/
def isBgExtraMsg : Msg → Bool
  | .extraBg _ => true
  | _ => false

/-- Recognizes the differential-missing error line of a given role. -/
def isDiffMissOf (role : String) : Msg → Bool
  | .roleMissingDiffs r _ => r == role
  | _ => false

/-- Recognizes the differential-extra warning line of a given role. -/
def isDiffExtraOf (role : String) : Msg → Bool
  | .roleExtraDiffs r _ => r == role
  | _ => false

/-- Every identifier list embedded in the message is strictly ascending
(the sorted, duplicate-free output of `sorted(<set>)`). -/
def msgSorted : Msg → Prop
  | .missingBg xs => xs.Sorted (· < ·)
  | .extraBg xs => xs.Sorted (· < ·)
  | .missingRoleDirs xs => xs.Sorted (· < ·)
  | .extraRoles xs => xs.Sorted (· < ·)
  | .missingFont _ => True
  | .roleMissingDiffs _ xs => xs.Sorted (· < ·)
  | .roleExtraDiffs _ xs => xs.Sorted (· < ·)
  | .textOnlyRoles xs => xs.Sorted (· < ·)
  | .charaOnlyRoles xs => xs.Sorted (· < ·)

/-- A filesystem state with nothing present at all (every directory
missing, no font files). -/
def wfsEmpty : AssetsFS where
  background_listing := none
  chara_listing := none
  chara_entry_is_dir := fun _ => false
  role_listing := fun _ => none
  font_isfile := fun _ => false

/-- Character metadata used by several witnesses: one role `luna` with
three emotions. -/
def wMetaLuna : CharaMeta := [("luna", ⟨some (.vint 3), some "luna.ttf", some "Luna"⟩)]

/-- Filesystem used by several witnesses: all 16 backgrounds, a `luna`
role directory holding differentials 1 and 2, and the `luna.ttf` font. -/
def wfsLuna : AssetsFS where
  background_listing := some ((List.range 16).map (fun i => "c" ++ toString (i + 1) ++ ".png"))
  chara_listing := some ["luna"]
  chara_entry_is_dir := fun _ => true
  role_listing := fun r => if r = "luna" then some ["luna(1).png", "luna(2).png"] else none
  font_isfile := fun f => f = "luna.ttf"

/-- Witness metadata with two roles sharing one font. -/
def wMetaTwo : CharaMeta :=
  [("a", ⟨some (.vint 1), some "f.ttf", some ""⟩),
   ("b", ⟨some (.vint 1), some "f.ttf", some ""⟩)]

/-- Witness filesystem matching `wMetaTwo` everywhere except that no font
file exists. -/
def wfsTwo : AssetsFS where
  background_listing := some ((List.range 16).map (fun i => "c" ++ toString (i + 1) ++ ".png"))
  chara_listing := some ["a", "b"]
  chara_entry_is_dir := fun _ => true
  role_listing := fun r => some [r ++ "(1).png"]
  font_isfile := fun _ => false

/-- A concrete whitelist document used by a witness. -/
def wWhitelistDoc : Option PyVal :=
  some (.vdict [("win32", .vlist [.vstr " notepad.exe ", .vint 3, .vstr "  "])])

/-! Basic facts about the executable sort, tying it to `Finset.sort`. -/

theorem msort_coe {α : Type} [LinearOrder α] (s : Multiset α) :
    (↑(msort s) : Multiset α) = s :=
  Quotient.inductionOn s fun l => Quot.sound (l.perm_insertionSort (· ≤ ·))

theorem msort_sorted {α : Type} [LinearOrder α] (s : Multiset α) :
    (msort s).Sorted (· ≤ ·) :=
  Quotient.inductionOn s fun l => List.sorted_insertionSort (· ≤ ·) l

/-- The executable sort is exactly Mathlib's `Finset.sort`. -/
theorem sortedOf_eq_sort {α : Type} [LinearOrder α] (s : Finset α) :
    sortedOf s = s.sort (· ≤ ·) := by
  refine List.eq_of_perm_of_sorted ?_ (msort_sorted s.val) (s.sort_sorted (· ≤ ·))
  have h : (↑(msort s.val) : Multiset α) = ↑(s.sort (· ≤ ·)) := by
    rw [msort_coe, Finset.sort_eq]
  exact Multiset.coe_eq_coe.mp h

theorem sortedOf_sorted_lt {α : Type} [LinearOrder α] (s : Finset α) :
    (sortedOf s).Sorted (· < ·) := by
  rw [sortedOf_eq_sort]; exact s.sort_sorted_lt

theorem mem_sortedOf {α : Type} [LinearOrder α] {s : Finset α} {a : α} :
    a ∈ sortedOf s ↔ a ∈ s := by
  rw [sortedOf_eq_sort]; exact Finset.mem_sort (· ≤ ·)

theorem sortedOf_eq_nil {α : Type} [LinearOrder α] {s : Finset α} :
    sortedOf s = [] ↔ s = ∅ := by
  constructor
  · intro h
    have hc : (↑([] : List α) : Multiset α) = s.val := by
      rw [← h]; exact msort_coe s.val
    exact Finset.val_eq_zero.mp (by simpa using hc.symm)
  · rintro rfl
    rw [sortedOf_eq_sort]
    exact Finset.sort_empty (· ≤ ·)

/-! Decomposition of `validate_assets` into its five blocks. -/

theorem validate_assets_ok {meta : CharaMeta} {tc : Option TextCfg} {fs : AssetsFS}
    {r : Report} (h : validate_assets meta tc fs = Except.ok r) :
    ∃ d, diffCheck fs meta = Except.ok d ∧
      r.errors = (bgCheck fs).1 ++ (roleDirCheck meta fs).1 ++ fontCheck meta fs ++ d.1 ∧
      r.warnings = (bgCheck fs).2.1 ++ (roleDirCheck meta fs).2 ++ d.2.1 ++ textCheck meta tc ∧
      r.ok = r.errors.isEmpty ∧
      r.stats = ⟨(bgCheck fs).2.2, d.2.2⟩ := by
  unfold validate_assets at h
  cases hd : diffCheck fs meta with
  | error e => rw [hd] at h; exact absurd h (by simp)
  | ok d =>
      rw [hd] at h
      cases h
      exact ⟨d, rfl, rfl, rfl, rfl, rfl⟩

/-- Structure of the differential block's output: stats keys follow the
configured roles in order, and every message is a per-role differential
message for a configured role carrying a sorted set. -/
theorem diffCheck_shape {fs : AssetsFS} :
    ∀ {meta : CharaMeta} {d}, diffCheck fs meta = Except.ok d →
    d.2.2.map Prod.fst = meta.map Prod.fst
    ∧ (∀ m ∈ d.1, ∃ ρ s, ρ ∈ meta.map Prod.fst ∧ m = Msg.roleMissingDiffs ρ (sortedOf s))
    ∧ (∀ m ∈ d.2.1, ∃ ρ s, ρ ∈ meta.map Prod.fst ∧ m = Msg.roleExtraDiffs ρ (sortedOf s))
  | [], d, h => by
      cases h
      refine ⟨rfl, ?_, ?_⟩ <;> intro m hm <;> cases hm
  | (role, rm) :: rest, d, h => by
      rw [diffCheck] at h
      cases hec : ecOf rm with
      | none => rw [hec] at h; exact absurd h (by simp)
      | some ec =>
          rw [hec] at h
          cases hrec : diffCheck fs rest with
          | error e => rw [hrec] at h; exact absurd h (by simp)
          | ok d2 =>
              rw [hrec] at h
              obtain ⟨ih1, ih2, ih3⟩ := diffCheck_shape hrec
              cases h
              refine ⟨by simpa using ih1, ?_, ?_⟩
              · intro m hm
                rcases List.mem_append.mp hm with hl | hr
                · refine ⟨role, Finset.Icc 1 ec.toNat \ scan_role_diffs fs role,
                    List.mem_cons_self _ _, ?_⟩
                  by_cases hc : sortedOf (Finset.Icc 1 ec.toNat \ scan_role_diffs fs role) ≠ []
                  · rw [if_pos hc] at hl
                    simpa using hl
                  · rw [if_neg hc] at hl
                    cases hl
                · obtain ⟨ρ, s, hρ, hm2⟩ := ih2 m hr
                  exact ⟨ρ, s, List.mem_cons_of_mem _ hρ, hm2⟩
              · intro m hm
                rcases List.mem_append.mp hm with hl | hr
                · refine ⟨role, scan_role_diffs fs role \ Finset.Icc 1 ec.toNat,
                    List.mem_cons_self _ _, ?_⟩
                  by_cases hc : sortedOf (scan_role_diffs fs role \ Finset.Icc 1 ec.toNat) ≠ []
                  · rw [if_pos hc] at hl
                    simpa using hl
                  · rw [if_neg hc] at hl
                    cases hl
                · obtain ⟨ρ, s, hρ, hm2⟩ := ih3 m hr
                  exact ⟨ρ, s, List.mem_cons_of_mem _ hρ, hm2⟩

/-- Membership in a conditional singleton. -/
theorem mem_ite_singleton {α : Type} {c : Prop} [Decidable c] {x a : α}
    (h : a ∈ (if c then [x] else ([] : List α))) : a = x := by
  split at h
  · simpa using h
  · cases h

/-- Every background-block error is the single sorted missing-list line. -/
theorem bgE_shape {fs : AssetsFS} :
    ∀ m ∈ (bgCheck fs).1,
      m = Msg.missingBg (sortedOf (Finset.Icc 1 16 \ scan_backgrounds fs)) :=
  fun _ hm => mem_ite_singleton hm

/-- Every background-block warning is the single sorted extra-list line. -/
theorem bgW_shape {fs : AssetsFS} :
    ∀ m ∈ (bgCheck fs).2.1,
      m = Msg.extraBg (sortedOf (scan_backgrounds fs \ Finset.Icc 1 16)) :=
  fun _ hm => mem_ite_singleton hm

/-- Every role-directory-block error is the single sorted missing-list line. -/
theorem roleDirE_shape {meta : CharaMeta} {fs : AssetsFS} :
    ∀ m ∈ (roleDirCheck meta fs).1,
      m = Msg.missingRoleDirs
        (sortedOf ((meta.map Prod.fst).toFinset \ scan_roles_in_assets fs)) :=
  fun _ hm => mem_ite_singleton hm

/-- Every role-directory-block warning is the single sorted extra-list line. -/
theorem roleDirW_shape {meta : CharaMeta} {fs : AssetsFS} :
    ∀ m ∈ (roleDirCheck meta fs).2,
      m = Msg.extraRoles
        (sortedOf (scan_roles_in_assets fs \ (meta.map Prod.fst).toFinset)) :=
  fun _ hm => mem_ite_singleton hm

/-- Every font-block message is a single-font missing-font error. -/
theorem fontCheck_shape {meta : CharaMeta} {fs : AssetsFS} :
    ∀ m ∈ fontCheck meta fs, ∃ f, m = Msg.missingFont f := by
  intro m hm
  obtain ⟨o, _, ho⟩ := List.mem_filterMap.mp hm
  by_cases hc : fs.font_isfile (fontStr o)
  · rw [if_pos hc] at ho
    cases ho
  · rw [if_neg hc] at ho
    exact ⟨fontStr o, (Option.some.injEq _ _).mp ho |>.symm⟩

/-- Every text-coverage message is one of the two sorted coverage
warnings. -/
theorem textCheck_shape {meta : CharaMeta} {tc : Option TextCfg} :
    ∀ m ∈ textCheck meta tc,
      (∃ s : Finset String, m = Msg.textOnlyRoles (sortedOf s))
      ∨ (∃ s : Finset String, m = Msg.charaOnlyRoles (sortedOf s)) := by
  intro m hm
  cases tc with
  | none => cases hm
  | some l =>
      rw [textCheck] at hm
      split at hm
      · cases hm
      · rcases List.mem_append.mp hm with hl | hr
        · exact Or.inl ⟨_, mem_ite_singleton hl⟩
        · exact Or.inr ⟨_, mem_ite_singleton hr⟩

/-- C1: background reconciliation.  The report of any successful call
records the found-background count, contains exactly one
background-missing error (listing the sorted set difference
`expected − found` for `expected = Icc 1 16`) precisely when that
difference is non-empty, and exactly one background-extra warning
(listing the sorted `found − expected`) precisely when that is
non-empty; a found set equal to 1..16 produces neither, and a difference
of exactly index 5 produces the error listing `[5]`. -/
theorem c1_background_reconciliation (meta : CharaMeta) (tc : Option TextCfg)
    (fs : AssetsFS) (r : Report) (h : validate_assets meta tc fs = Except.ok r) :
    r.stats.backgrounds.found = (scan_backgrounds fs).card
    ∧ r.errors.filter isBgMissMsg =
        (if Finset.Icc 1 16 \ scan_backgrounds fs = ∅ then []
         else [Msg.missingBg (sortedOf (Finset.Icc 1 16 \ scan_backgrounds fs))])
    ∧ r.warnings.filter isBgExtraMsg =
        (if scan_backgrounds fs \ Finset.Icc 1 16 = ∅ then []
         else [Msg.extraBg (sortedOf (scan_backgrounds fs \ Finset.Icc 1 16))])
    ∧ (scan_backgrounds fs = Finset.Icc 1 16 →
        r.errors.filter isBgMissMsg = [] ∧ r.warnings.filter isBgExtraMsg = [])
    ∧ (Finset.Icc 1 16 \ scan_backgrounds fs = {5} →
        r.errors.filter isBgMissMsg = [Msg.missingBg [5]]) := by
  obtain ⟨d, hd, he, hw, _, hs⟩ := validate_assets_ok h
  obtain ⟨_, hde, hdw⟩ := diffCheck_shape hd
  have hfe : r.errors.filter isBgMissMsg =
      (if Finset.Icc 1 16 \ scan_backgrounds fs = ∅ then []
       else [Msg.missingBg (sortedOf (Finset.Icc 1 16 \ scan_backgrounds fs))]) := by
    rw [he, List.filter_append, List.filter_append, List.filter_append]
    have h2 : (roleDirCheck meta fs).1.filter isBgMissMsg = [] :=
      List.filter_eq_nil_iff.mpr (fun a ha => by rw [roleDirE_shape a ha]; simp [isBgMissMsg])
    have h3 : (fontCheck meta fs).filter isBgMissMsg = [] :=
      List.filter_eq_nil_iff.mpr (fun a ha => by
        obtain ⟨f, rfl⟩ := fontCheck_shape a ha; simp [isBgMissMsg])
    have h4 : d.1.filter isBgMissMsg = [] :=
      List.filter_eq_nil_iff.mpr (fun a ha => by
        obtain ⟨ρ, s, _, rfl⟩ := hde a ha; simp [isBgMissMsg])
    rw [h2, h3, h4]
    by_cases hc : Finset.Icc 1 16 \ scan_backgrounds fs = ∅
    · have : (bgCheck fs).1 = [] := by
        show (if sortedOf (Finset.Icc 1 16 \ scan_backgrounds fs) ≠ [] then
          [Msg.missingBg (sortedOf (Finset.Icc 1 16 \ scan_backgrounds fs))] else []) = []
        rw [if_neg (by simp [sortedOf_eq_nil, hc])]
      rw [this, if_pos hc]
      rfl
    · have : (bgCheck fs).1 =
          [Msg.missingBg (sortedOf (Finset.Icc 1 16 \ scan_backgrounds fs))] := by
        show (if sortedOf (Finset.Icc 1 16 \ scan_backgrounds fs) ≠ [] then
          [Msg.missingBg (sortedOf (Finset.Icc 1 16 \ scan_backgrounds fs))] else []) = _
        rw [if_pos (fun hnil => hc (sortedOf_eq_nil.mp hnil))]
      rw [this, if_neg hc]
      simp [isBgMissMsg]
  have hfw : r.warnings.filter isBgExtraMsg =
      (if scan_backgrounds fs \ Finset.Icc 1 16 = ∅ then []
       else [Msg.extraBg (sortedOf (scan_backgrounds fs \ Finset.Icc 1 16))]) := by
    rw [hw, List.filter_append, List.filter_append, List.filter_append]
    have h2 : (roleDirCheck meta fs).2.filter isBgExtraMsg = [] :=
      List.filter_eq_nil_iff.mpr (fun a ha => by rw [roleDirW_shape a ha]; simp [isBgExtraMsg])
    have h4 : d.2.1.filter isBgExtraMsg = [] :=
      List.filter_eq_nil_iff.mpr (fun a ha => by
        obtain ⟨ρ, s, _, rfl⟩ := hdw a ha; simp [isBgExtraMsg])
    have h5 : (textCheck meta tc).filter isBgExtraMsg = [] :=
      List.filter_eq_nil_iff.mpr (fun a ha => by
        rcases textCheck_shape a ha with ⟨s, rfl⟩ | ⟨s, rfl⟩ <;> simp [isBgExtraMsg])
    rw [h2, h4, h5]
    by_cases hc : scan_backgrounds fs \ Finset.Icc 1 16 = ∅
    · have : (bgCheck fs).2.1 = [] := by
        show (if sortedOf (scan_backgrounds fs \ Finset.Icc 1 16) ≠ [] then
          [Msg.extraBg (sortedOf (scan_backgrounds fs \ Finset.Icc 1 16))] else []) = []
        rw [if_neg (by simp [sortedOf_eq_nil, hc])]
      rw [this, if_pos hc]
      rfl
    · have : (bgCheck fs).2.1 =
          [Msg.extraBg (sortedOf (scan_backgrounds fs \ Finset.Icc 1 16))] := by
        show (if sortedOf (scan_backgrounds fs \ Finset.Icc 1 16) ≠ [] then
          [Msg.extraBg (sortedOf (scan_backgrounds fs \ Finset.Icc 1 16))] else []) = _
        rw [if_pos (fun hnil => hc (sortedOf_eq_nil.mp hnil))]
      rw [this, if_neg hc]
      simp [isBgExtraMsg]
  refine ⟨by rw [hs]; rfl, hfe, hfw, ?_, ?_⟩
  · intro hfull
    constructor
    · rw [hfe, if_pos (by rw [hfull]; exact Finset.sdiff_self _)]
    · rw [hfw, if_pos (by rw [hfull]; exact Finset.sdiff_self _)]
  · intro h5
    rw [hfe, h5, if_neg (by simp)]
    have : sortedOf ({5} : Finset Nat) = [5] := by
      rw [sortedOf_eq_sort]
      exact Finset.sort_singleton (· ≤ ·) 5
    rw [this]

/-- Witness for C1 at a concrete input: no backgrounds on disk, so all of
1..16 are missing. -/
theorem c1_background_reconciliation_witness :
    ∃ r, validate_assets [] none wfsEmpty = Except.ok r
      ∧ r.stats.backgrounds.found = (scan_backgrounds wfsEmpty).card
      ∧ r.errors.filter isBgMissMsg =
          (if Finset.Icc 1 16 \ scan_backgrounds wfsEmpty = ∅ then []
           else [Msg.missingBg (sortedOf (Finset.Icc 1 16 \ scan_backgrounds wfsEmpty))]) := by
  have h : validate_assets [] none wfsEmpty = Except.ok
      ⟨false, [Msg.missingBg [1, 2, 3, 4, 5, 6, 7, 8, 9, 10, 11, 12, 13, 14, 15, 16]],
        [], ⟨⟨0⟩, []⟩⟩ := by rfl
  obtain ⟨h1, h2, _⟩ := c1_background_reconciliation [] none wfsEmpty _ h
  exact ⟨_, h, h1, h2⟩

/-- C4: the report's `ok` flag is true exactly when its error list is
empty; the warning list plays no part in it. -/
theorem c4_ok_iff_errors_empty (meta : CharaMeta) (tc : Option TextCfg)
    (fs : AssetsFS) (r : Report) (h : validate_assets meta tc fs = Except.ok r) :
    r.ok = true ↔ r.errors = [] := by
  obtain ⟨d, _, _, _, hok, _⟩ := validate_assets_ok h
  rw [hok]
  exact List.isEmpty_iff

/-- Witness for C4 at a concrete input: an empty filesystem yields a
report with errors, hence `ok = false`; warnings are irrelevant. -/
theorem c4_ok_iff_errors_empty_witness :
    ∃ r, validate_assets [] none wfsEmpty = Except.ok r ∧ (r.ok = true ↔ r.errors = [])
      ∧ r.ok = false := by
  have h : validate_assets [] none wfsEmpty = Except.ok
      ⟨false, [Msg.missingBg [1, 2, 3, 4, 5, 6, 7, 8, 9, 10, 11, 12, 13, 14, 15, 16]],
        [], ⟨⟨0⟩, []⟩⟩ := by rfl
  exact ⟨_, h, c4_ok_iff_errors_empty [] none wfsEmpty _ h, rfl⟩

/-- C9: the key list of `stats.roles` is exactly the key list of the
configured metadata mapping — every configured role appears, and no
unconfigured role ever does. -/
theorem c9_stats_roles_keys (meta : CharaMeta) (tc : Option TextCfg)
    (fs : AssetsFS) (r : Report) (h : validate_assets meta tc fs = Except.ok r) :
    r.stats.roles.map Prod.fst = meta.map Prod.fst := by
  obtain ⟨d, hd, _, _, _, hs⟩ := validate_assets_ok h
  obtain ⟨h1, _, _⟩ := diffCheck_shape hd
  rw [hs]
  exact h1

/-- Witness for C9 at a concrete input: the single configured role `luna`
is exactly the key list of `stats.roles`, even though its directory holds
too few differentials. -/
theorem c9_stats_roles_keys_witness :
    ∃ r, validate_assets wMetaLuna none wfsLuna = Except.ok r
      ∧ r.stats.roles.map Prod.fst = wMetaLuna.map Prod.fst := by
  have h : validate_assets wMetaLuna none wfsLuna = Except.ok
      ⟨false, [Msg.roleMissingDiffs "luna" [3]], [],
        ⟨⟨16⟩, [("luna", ⟨3, 2⟩)]⟩⟩ := by rfl
  exact ⟨_, h, c9_stats_roles_keys wMetaLuna none wfsLuna _ h⟩

/-- C7: determinism and canonical ordering.  A second call on identical
inputs yields the identical report, and every identifier list embedded in
any error or warning message is sorted (strictly ascending). -/
theorem c7_deterministic_sorted (meta : CharaMeta) (tc : Option TextCfg)
    (fs : AssetsFS) (r : Report) (h : validate_assets meta tc fs = Except.ok r) :
    (∀ r2, validate_assets meta tc fs = Except.ok r2 → r2 = r)
    ∧ (∀ m ∈ r.errors, msgSorted m)
    ∧ (∀ m ∈ r.warnings, msgSorted m) := by
  obtain ⟨d, hd, he, hw, _, _⟩ := validate_assets_ok h
  obtain ⟨_, hde, hdw⟩ := diffCheck_shape hd
  refine ⟨?_, ?_, ?_⟩
  · intro r2 h2
    rw [h] at h2
    exact (Except.ok.inj h2).symm
  · intro m hm
    rw [he] at hm
    rcases List.mem_append.mp hm with hm3 | hm4
    · rcases List.mem_append.mp hm3 with hm1 | hm2
      · rcases List.mem_append.mp hm1 with hb | hrd
        · obtain rfl := bgE_shape m hb
          exact sortedOf_sorted_lt _
        · obtain rfl := roleDirE_shape m hrd
          exact sortedOf_sorted_lt _
      · obtain ⟨f, rfl⟩ := fontCheck_shape m hm2
        trivial
    · obtain ⟨ρ, s, _, rfl⟩ := hde m hm4
      exact sortedOf_sorted_lt _
  · intro m hm
    rw [hw] at hm
    rcases List.mem_append.mp hm with hm3 | hm4
    · rcases List.mem_append.mp hm3 with hm1 | hm2
      · rcases List.mem_append.mp hm1 with hb | hrd
        · obtain rfl := bgW_shape m hb
          exact sortedOf_sorted_lt _
        · obtain rfl := roleDirW_shape m hrd
          exact sortedOf_sorted_lt _
      · obtain ⟨ρ, s, _, rfl⟩ := hdw m hm2
        exact sortedOf_sorted_lt _
    · rcases textCheck_shape m hm4 with ⟨s, rfl⟩ | ⟨s, rfl⟩ <;>
        exact sortedOf_sorted_lt _

/-- Witness for C7 at a concrete input: the report is unique and its
single error's embedded list is sorted. -/
theorem c7_deterministic_sorted_witness :
    ∃ r, validate_assets wMetaLuna none wfsLuna = Except.ok r
      ∧ (∀ r2, validate_assets wMetaLuna none wfsLuna = Except.ok r2 → r2 = r)
      ∧ (∀ m ∈ r.errors, msgSorted m) := by
  have h : validate_assets wMetaLuna none wfsLuna = Except.ok
      ⟨false, [Msg.roleMissingDiffs "luna" [3]], [],
        ⟨⟨16⟩, [("luna", ⟨3, 2⟩)]⟩⟩ := by rfl
  obtain ⟨h1, h2, _⟩ := c7_deterministic_sorted wMetaLuna none wfsLuna _ h
  exact ⟨_, h, h1, h2⟩

/-- Localized output of the differential block at one configured role
(keys unique, as in any Python dict): its stats entry, and the filtered
error/warning lines carrying that role's name. -/
theorem diffCheck_at {fs : AssetsFS} :
    ∀ {meta : CharaMeta} {d}, diffCheck fs meta = Except.ok d →
    (meta.map Prod.fst).Nodup →
    ∀ {role : String} {rm : RoleMeta}, (role, rm) ∈ meta →
    ∀ {ec : Int}, ecOf rm = some ec →
    d.2.2.lookup role =
      some ⟨(Finset.Icc 1 ec.toNat).card, (scan_role_diffs fs role).card⟩
    ∧ d.1.filter (isDiffMissOf role) =
        (if Finset.Icc 1 ec.toNat \ scan_role_diffs fs role = ∅ then []
         else [Msg.roleMissingDiffs role
           (sortedOf (Finset.Icc 1 ec.toNat \ scan_role_diffs fs role))])
    ∧ d.2.1.filter (isDiffExtraOf role) =
        (if scan_role_diffs fs role \ Finset.Icc 1 ec.toNat = ∅ then []
         else [Msg.roleExtraDiffs role
           (sortedOf (scan_role_diffs fs role \ Finset.Icc 1 ec.toNat))])
  | [], d, h => by
      intro _ role rm hmem ec hec
      exact absurd hmem (List.not_mem_nil _)
  | (role0, rm0) :: rest, d, h => by
      rw [diffCheck] at h
      cases hec0 : ecOf rm0 with
      | none => rw [hec0] at h; exact absurd h (by simp)
      | some ec0 =>
          rw [hec0] at h
          cases hrec : diffCheck fs rest with
          | error e => rw [hrec] at h; exact absurd h (by simp)
          | ok d2 =>
              rw [hrec] at h
              cases h
              intro hnd role rm hmem ec hec
              rw [List.map_cons, List.nodup_cons] at hnd
              obtain ⟨h0nin, hndr⟩ := hnd
              obtain ⟨_, hshapeE, hshapeW⟩ := diffCheck_shape hrec
              rcases List.mem_cons.mp hmem with heq | hmemr
              · injection heq with h1 h2
                subst h1
                subst h2
                rw [hec] at hec0
                obtain rfl := Option.some.inj hec0
                refine ⟨by simp [List.lookup], ?_, ?_⟩
                · rw [List.filter_append]
                  have h4 : d2.1.filter (isDiffMissOf role) = [] :=
                    List.filter_eq_nil_iff.mpr (fun a ha => by
                      obtain ⟨ρ, s, hρ, rfl⟩ := hshapeE a ha
                      have : ρ ≠ role := fun hρr => h0nin (hρr ▸ hρ)
                      simp [isDiffMissOf, this])
                  rw [h4, List.append_nil]
                  by_cases hc : Finset.Icc 1 ec.toNat \ scan_role_diffs fs role = ∅
                  · rw [if_pos hc, if_neg (by simp [sortedOf_eq_nil, hc])]
                    rfl
                  · rw [if_neg hc,
                      if_pos (fun hnil => hc (sortedOf_eq_nil.mp hnil))]
                    simp [isDiffMissOf]
                · rw [List.filter_append]
                  have h4 : d2.2.1.filter (isDiffExtraOf role) = [] :=
                    List.filter_eq_nil_iff.mpr (fun a ha => by
                      obtain ⟨ρ, s, hρ, rfl⟩ := hshapeW a ha
                      have : ρ ≠ role := fun hρr => h0nin (hρr ▸ hρ)
                      simp [isDiffExtraOf, this])
                  rw [h4, List.append_nil]
                  by_cases hc : scan_role_diffs fs role \ Finset.Icc 1 ec.toNat = ∅
                  · rw [if_pos hc, if_neg (by simp [sortedOf_eq_nil, hc])]
                    rfl
                  · rw [if_neg hc,
                      if_pos (fun hnil => hc (sortedOf_eq_nil.mp hnil))]
                    simp [isDiffExtraOf]
              · have hner : role ≠ role0 := fun hr => by
                  have hmap : role ∈ rest.map Prod.fst :=
                    List.mem_map_of_mem Prod.fst hmemr
                  exact h0nin (hr ▸ hmap)
                have hbeq : (role == role0) = false := beq_eq_false_iff_ne.mpr hner
                obtain ⟨ih1, ih2, ih3⟩ := diffCheck_at hrec hndr hmemr hec
                refine ⟨by simpa [List.lookup, hbeq] using ih1, ?_, ?_⟩
                · rw [List.filter_append]
                  have hc1 : (if sortedOf (Finset.Icc 1 ec0.toNat \ scan_role_diffs fs role0) ≠ []
                      then [Msg.roleMissingDiffs role0
                        (sortedOf (Finset.Icc 1 ec0.toNat \ scan_role_diffs fs role0))]
                      else []).filter (isDiffMissOf role) = [] :=
                    List.filter_eq_nil_iff.mpr (fun a ha => by
                      obtain rfl := mem_ite_singleton ha
                      simp [isDiffMissOf, hner.symm])
                  rw [hc1, List.nil_append]
                  exact ih2
                · rw [List.filter_append]
                  have hc1 : (if sortedOf (scan_role_diffs fs role0 \ Finset.Icc 1 ec0.toNat) ≠ []
                      then [Msg.roleExtraDiffs role0
                        (sortedOf (scan_role_diffs fs role0 \ Finset.Icc 1 ec0.toNat))]
                      else []).filter (isDiffExtraOf role) = [] :=
                    List.filter_eq_nil_iff.mpr (fun a ha => by
                      obtain rfl := mem_ite_singleton ha
                      simp [isDiffExtraOf, hner.symm])
                  rw [hc1, List.nil_append]
                  exact ih3

/-- C2: per-role differential reconciliation.  For a configured role with
an integer `emotion_count`, the successful report's stats entry for that
role is `(emotion_count, |found|)`, and the role's differential error
(resp. warning) line is present exactly once with the sorted missing
(resp. extra) indices when `Icc 1 emotion_count − found` (resp. the
converse difference) is non-empty. -/
theorem c2_role_differentials (meta : CharaMeta) (tc : Option TextCfg)
    (fs : AssetsFS) (r : Report) (role : String) (rm : RoleMeta) (ec : Int)
    (hnd : (meta.map Prod.fst).Nodup)
    (h : validate_assets meta tc fs = Except.ok r)
    (hmem : (role, rm) ∈ meta)
    (hec : rm.emotion_count = some (.vint ec)) (hpos : 0 ≤ ec) :
    r.stats.roles.lookup role = some ⟨ec.toNat, (scan_role_diffs fs role).card⟩
    ∧ ((ec.toNat : Int) = ec)
    ∧ r.errors.filter (isDiffMissOf role) =
        (if Finset.Icc 1 ec.toNat \ scan_role_diffs fs role = ∅ then []
         else [Msg.roleMissingDiffs role
           (sortedOf (Finset.Icc 1 ec.toNat \ scan_role_diffs fs role))])
    ∧ r.warnings.filter (isDiffExtraOf role) =
        (if scan_role_diffs fs role \ Finset.Icc 1 ec.toNat = ∅ then []
         else [Msg.roleExtraDiffs role
           (sortedOf (scan_role_diffs fs role \ Finset.Icc 1 ec.toNat))]) := by
  obtain ⟨d, hd, he, hw, _, hs⟩ := validate_assets_ok h
  have hecOf : ecOf rm = some ec := by simp [ecOf, hec, pyInt]
  obtain ⟨g1, g2, g3⟩ := diffCheck_at hd hnd hmem hecOf
  refine ⟨?_, Int.toNat_of_nonneg hpos, ?_, ?_⟩
  · rw [hs]
    show d.2.2.lookup role = _
    rw [g1, Nat.card_Icc]
    norm_num
  · rw [he, List.filter_append, List.filter_append, List.filter_append]
    have f1 : (bgCheck fs).1.filter (isDiffMissOf role) = [] :=
      List.filter_eq_nil_iff.mpr (fun a ha => by
        obtain rfl := bgE_shape a ha; simp [isDiffMissOf])
    have f2 : (roleDirCheck meta fs).1.filter (isDiffMissOf role) = [] :=
      List.filter_eq_nil_iff.mpr (fun a ha => by
        obtain rfl := roleDirE_shape a ha; simp [isDiffMissOf])
    have f3 : (fontCheck meta fs).filter (isDiffMissOf role) = [] :=
      List.filter_eq_nil_iff.mpr (fun a ha => by
        obtain ⟨f, rfl⟩ := fontCheck_shape a ha; simp [isDiffMissOf])
    rw [f1, f2, f3, List.nil_append, List.nil_append, List.nil_append]
    exact g2
  · rw [hw, List.filter_append, List.filter_append, List.filter_append]
    have f1 : (bgCheck fs).2.1.filter (isDiffExtraOf role) = [] :=
      List.filter_eq_nil_iff.mpr (fun a ha => by
        obtain rfl := bgW_shape a ha; simp [isDiffExtraOf])
    have f2 : (roleDirCheck meta fs).2.filter (isDiffExtraOf role) = [] :=
      List.filter_eq_nil_iff.mpr (fun a ha => by
        obtain rfl := roleDirW_shape a ha; simp [isDiffExtraOf])
    have f5 : (textCheck meta tc).filter (isDiffExtraOf role) = [] :=
      List.filter_eq_nil_iff.mpr (fun a ha => by
        rcases textCheck_shape a ha with ⟨s, rfl⟩ | ⟨s, rfl⟩ <;> simp [isDiffExtraOf])
    rw [f1, f2, f5, List.nil_append, List.nil_append, List.append_nil]
    exact g3

/-- Witness for C2 at a concrete input: role `luna` with
`emotion_count = 3` and discovered differentials 1 and 2 gets the stats
entry `(3, 2)` and an error listing `[3]`. -/
theorem c2_role_differentials_witness :
    ∃ r, validate_assets wMetaLuna none wfsLuna = Except.ok r
      ∧ r.stats.roles.lookup "luna" =
          some ⟨(3 : Int).toNat, (scan_role_diffs wfsLuna "luna").card⟩
      ∧ r.errors.filter (isDiffMissOf "luna") =
          (if Finset.Icc 1 (3 : Int).toNat \ scan_role_diffs wfsLuna "luna" = ∅ then []
           else [Msg.roleMissingDiffs "luna"
             (sortedOf (Finset.Icc 1 (3 : Int).toNat \ scan_role_diffs wfsLuna "luna"))]) := by
  have h : validate_assets wMetaLuna none wfsLuna = Except.ok
      ⟨false, [Msg.roleMissingDiffs "luna" [3]], [],
        ⟨⟨16⟩, [("luna", ⟨3, 2⟩)]⟩⟩ := by rfl
  obtain ⟨g1, _, g3, _⟩ := c2_role_differentials wMetaLuna none wfsLuna _ "luna" _ 3
    (by simp [wMetaLuna]) h (List.mem_singleton.mpr rfl) rfl (by norm_num)
  exact ⟨_, h, g1, g3⟩

/-- C3 counterexample: `validate_assets` raises on a metadata mapping
whose `emotion_count` is a present but non-integer-coercible value
(Python's `int("abc")` raises `ValueError` at line 257), so the claim
that it returns a report for every meta mapping is false as stated. -/
theorem c3_counterexample :
    validate_assets [("r", ⟨some (.vstr "abc"), some "f.ttf", none⟩)] none wfsEmpty
      = Except.error () := by rfl

/-- The differential loop succeeds when every configured role's
`emotion_count` is absent or `int()`-coercible. -/
theorem diffCheck_ok_of (fs : AssetsFS) :
    ∀ (meta : CharaMeta), (∀ p ∈ meta, (ecOf p.2).isSome) →
    ∃ d, diffCheck fs meta = Except.ok d
  | [], _ => ⟨([], [], []), rfl⟩
  | (role, rm) :: rest, h => by
      obtain ⟨ec, hec⟩ :=
        Option.isSome_iff_exists.mp (h _ (List.mem_cons_self _ _))
      obtain ⟨d2, hd2⟩ :=
        diffCheck_ok_of fs rest (fun p hp => h p (List.mem_cons_of_mem _ hp))
      exact ⟨_, by rw [diffCheck, hec, hd2]⟩

/-- C3 (amended): `validate_assets` returns a report — never raises —
whenever every present `emotion_count` value coerces under `int()` (which
`load_chara_meta` guarantees for the mappings it produces); a role whose
`emotion_count` key is absent is treated as expected = empty set, its
stats entry recording `expected = 0`.  A present non-coercible value
instead raises (see the counterexample). -/
theorem c3_amended_no_raise (meta : CharaMeta) (tc : Option TextCfg)
    (fs : AssetsFS) (hec : ∀ p ∈ meta, (ecOf p.2).isSome) :
    ∃ r, validate_assets meta tc fs = Except.ok r
      ∧ ((meta.map Prod.fst).Nodup →
          ∀ role rm, (role, rm) ∈ meta → rm.emotion_count = none →
            r.stats.roles.lookup role = some ⟨0, (scan_role_diffs fs role).card⟩) := by
  obtain ⟨d, hd⟩ := diffCheck_ok_of fs meta hec
  have h : validate_assets meta tc fs = Except.ok
      ⟨((bgCheck fs).1 ++ (roleDirCheck meta fs).1 ++ fontCheck meta fs ++ d.1).isEmpty,
        (bgCheck fs).1 ++ (roleDirCheck meta fs).1 ++ fontCheck meta fs ++ d.1,
        (bgCheck fs).2.1 ++ (roleDirCheck meta fs).2 ++ d.2.1 ++ textCheck meta tc,
        ⟨(bgCheck fs).2.2, d.2.2⟩⟩ := by rw [validate_assets, hd]
  refine ⟨_, h, ?_⟩
  intro hnd role rm hmem hnone
  have hecOf : ecOf rm = some 0 := by rw [ecOf, hnone]
  obtain ⟨g1, _, _⟩ := diffCheck_at hd hnd hmem hecOf
  have hcard : (Finset.Icc 1 (Int.toNat 0)).card = 0 := by rw [Nat.card_Icc]; rfl
  show d.2.2.lookup role = _
  rw [g1, hcard]

/-- Witness for the amended C3: a role whose `emotion_count` key is
absent yields a report with a stats entry `expected = 0`. -/
theorem c3_amended_no_raise_witness :
    ∃ r, validate_assets [("r", ⟨none, some "f.ttf", none⟩)] none wfsEmpty = Except.ok r
      ∧ r.stats.roles.lookup "r" = some ⟨0, (scan_role_diffs wfsEmpty "r").card⟩ := by
  obtain ⟨r, hr, hst⟩ := c3_amended_no_raise [("r", ⟨none, some "f.ttf", none⟩)] none wfsEmpty
    (by intro p hp; rw [List.mem_singleton.mp hp]; rfl)
  exact ⟨r, hr, hst (by simp) "r" _ (List.mem_singleton.mpr rfl) rfl⟩

/-- Counting missing-font error lines produced from a duplicate-free list
of present font values: one line per font value whose file is absent. -/
theorem count_fontErrors (fs : AssetsFS) (f : String) :
    ∀ (l : List (Option String)), l.Nodup → (∀ o ∈ l, o.isSome) →
    (l.filterMap (fun o =>
      if fs.font_isfile (fontStr o) then none
      else some (Msg.missingFont (fontStr o)))).count (Msg.missingFont f)
    = if some f ∈ l ∧ fs.font_isfile f = false then 1 else 0
  | [], _, _ => by simp
  | o :: rest, hnd, hall => by
      obtain ⟨a, rfl⟩ :=
        Option.isSome_iff_exists.mp (hall o (List.mem_cons_self _ _))
      rw [List.nodup_cons] at hnd
      obtain ⟨hnin, hndr⟩ := hnd
      have ih := count_fontErrors fs f rest hndr
        (fun o ho => hall o (List.mem_cons_of_mem _ ho))
      rw [List.filterMap_cons]
      by_cases hfile : fs.font_isfile (fontStr (some a))
      · rw [if_pos hfile, ih]
        by_cases hfa : f = a
        · subst hfa
          have hfile' : fs.font_isfile f = true := by simpa [fontStr] using hfile
          simp [hfile']
        · simp [List.mem_cons, hfa]
      · rw [if_neg hfile, List.count_cons, ih]
        by_cases hfa : f = a
        · subst hfa
          have hfile' : fs.font_isfile f = false := by simpa using hfile
          simp [hnin, hfile', fontStr]
        · have hfa' : a ≠ f := Ne.symm hfa
          simp [List.mem_cons, hfa, hfa', fontStr]

/-- C5: font deduplication.  In any successful report, for any font name
`f` (with every configured role's font present, as `load_chara_meta`
guarantees), the number of missing-font error lines for `f` is exactly
one when some role references `f` and the file is absent, and zero
otherwise — independent of how many roles share the font. -/
theorem c5_font_dedup (meta : CharaMeta) (tc : Option TextCfg)
    (fs : AssetsFS) (r : Report) (f : String)
    (h : validate_assets meta tc fs = Except.ok r)
    (hf : ∀ p ∈ meta, (p : String × RoleMeta).2.font.isSome) :
    r.errors.count (Msg.missingFont f) =
      if some f ∈ meta.map (fun p => p.2.font) ∧ fs.font_isfile f = false
      then 1 else 0 := by
  obtain ⟨d, hd, he, _, _, _⟩ := validate_assets_ok h
  obtain ⟨_, hde, _⟩ := diffCheck_shape hd
  rw [he, List.count_append, List.count_append, List.count_append]
  have z1 : (bgCheck fs).1.count (Msg.missingFont f) = 0 :=
    List.count_eq_zero.mpr (fun hmem => by cases bgE_shape _ hmem)
  have z2 : (roleDirCheck meta fs).1.count (Msg.missingFont f) = 0 :=
    List.count_eq_zero.mpr (fun hmem => by cases roleDirE_shape _ hmem)
  have z4 : d.1.count (Msg.missingFont f) = 0 :=
    List.count_eq_zero.mpr (fun hmem => by
      obtain ⟨ρ, s, _, hcl⟩ := hde _ hmem
      cases hcl)
  have hc : (fontCheck meta fs).count (Msg.missingFont f) =
      if some f ∈ fontList meta ∧ fs.font_isfile f = false then 1 else 0 :=
    count_fontErrors fs f (fontList meta) (List.nodup_dedup _)
      (fun o ho => by
        obtain ⟨p, hp, rfl⟩ := List.mem_map.mp (List.mem_dedup.mp ho)
        exact hf p hp)
  rw [z1, z2, z4, hc]
  have : (some f ∈ fontList meta) ↔ some f ∈ meta.map (fun p => p.2.font) :=
    List.mem_dedup
  rw [if_congr (and_congr_left fun _ => this) rfl rfl]
  simp

/-- Witness for C5 at a concrete input: two roles share the absent font
`f.ttf`, yet exactly one missing-font error is produced. -/
theorem c5_font_dedup_witness :
    ∃ r, validate_assets wMetaTwo none wfsTwo = Except.ok r
      ∧ r.errors.count (Msg.missingFont "f.ttf") =
          (if some "f.ttf" ∈ wMetaTwo.map (fun p => p.2.font)
              ∧ wfsTwo.font_isfile "f.ttf" = false then 1 else 0)
      ∧ r.errors.count (Msg.missingFont "f.ttf") = 1 := by
  have h : validate_assets wMetaTwo none wfsTwo = Except.ok
      ⟨false, [Msg.missingFont "f.ttf"], [],
        ⟨⟨16⟩, [("a", ⟨1, 1⟩), ("b", ⟨1, 1⟩)]⟩⟩ := by rfl
  refine ⟨_, h, c5_font_dedup wMetaTwo none wfsTwo _ "f.ttf" h ?_, by rfl⟩
  intro p hp
  rcases List.mem_cons.mp hp with hp1 | hp2
  · rw [hp1]
    rfl
  · rw [List.mem_singleton.mp hp2]
    rfl

/-- C6: the whitelist loader's contract.  Key lookup is by the
lower-cased OS name (so two names with the same lower-casing give
identical results); an absent key yields the empty list; every returned
entry is the non-blank trim of a string entry of the selected list; and
every string entry with a non-blank trim contributes its trim to the
result. -/
theorem c6_whitelist_contract :
    (∀ (doc : Option PyVal) (s t : String), pyLower s = pyLower t →
      load_process_whitelist doc s = load_process_whitelist doc t)
    ∧ (∀ (m : List (String × PyVal)) (os : String),
        m.lookup (pyLower os) = none →
        load_process_whitelist (some (.vdict m)) os = [])
    ∧ (∀ (doc : Option PyVal) (os x : String),
        x ∈ load_process_whitelist doc os →
        x ≠ "" ∧ ∃ m items s, doc = some (PyVal.vdict m)
          ∧ m.lookup (pyLower os) = some (PyVal.vlist items)
          ∧ PyVal.vstr s ∈ items ∧ x = pyStrip s)
    ∧ (∀ (m : List (String × PyVal)) (items : List PyVal) (os s : String),
        m.isEmpty = false → m.lookup (pyLower os) = some (PyVal.vlist items) →
        PyVal.vstr s ∈ items → pyStrip s ≠ "" →
        pyStrip s ∈ load_process_whitelist (some (.vdict m)) os) := by
  refine ⟨?_, ?_, ?_, ?_⟩
  · intro doc s t hst
    cases doc with
    | none => rfl
    | some v =>
        cases v <;> try rfl
        simp only [load_process_whitelist, hst]
  · intro m os hl
    simp only [load_process_whitelist]
    rw [hl]
    split <;> rfl
  · intro doc os x hx
    cases doc with
    | none => cases hx
    | some v =>
        cases v with
        | vdict m =>
            simp only [load_process_whitelist] at hx
            split at hx
            · cases hx
            · cases hlk : m.lookup (pyLower os) with
              | none => rw [hlk] at hx; cases hx
              | some w =>
                  rw [hlk] at hx
                  cases w with
                  | vlist items =>
                      obtain ⟨it, hit, hsome⟩ := List.mem_filterMap.mp hx
                      cases it with
                      | vstr s =>
                          change (if pyStrip s ≠ "" then some (pyStrip s)
                            else none) = some x at hsome
                          by_cases hb : pyStrip s ≠ ""
                          · rw [if_pos hb] at hsome
                            obtain rfl := Option.some.inj hsome
                            exact ⟨hb, m, items, s, rfl, hlk, hit, rfl⟩
                          · rw [if_neg hb] at hsome
                            cases hsome
                      | vint n => cases hsome
                      | vnone => cases hsome
                      | vlist l => cases hsome
                      | vdict l => cases hsome
                  | vint n => cases hx
                  | vstr s => cases hx
                  | vnone => cases hx
                  | vdict l => cases hx
        | vint n => cases hx
        | vstr s => cases hx
        | vnone => cases hx
        | vlist l => cases hx
  · intro m items os s hne hlk hit hb
    simp only [load_process_whitelist]
    rw [if_neg (by simp [hne]), hlk]
    exact List.mem_filterMap.mpr ⟨.vstr s, hit, if_pos hb⟩

/-- Witness for C6 at concrete inputs: `Win32` and `win32` agree, an
unknown OS key yields `[]`, and the surviving entry is a trimmed
non-blank string entry of the document. -/
theorem c6_whitelist_contract_witness :
    load_process_whitelist wWhitelistDoc "Win32" = load_process_whitelist wWhitelistDoc "win32"
    ∧ load_process_whitelist wWhitelistDoc "darwin" = []
    ∧ ("notepad.exe" ≠ "" ∧ ∃ m items s, wWhitelistDoc = some (PyVal.vdict m)
        ∧ m.lookup (pyLower "Win32") = some (PyVal.vlist items)
        ∧ PyVal.vstr s ∈ items ∧ "notepad.exe" = pyStrip s) := by
  refine ⟨c6_whitelist_contract.1 wWhitelistDoc "Win32" "win32" (by rfl), ?_, ?_⟩
  · exact c6_whitelist_contract.2.1
      [("win32", .vlist [.vstr " notepad.exe ", .vint 3, .vstr "  "])] "darwin" (by rfl)
  · refine c6_whitelist_contract.2.2.1 wWhitelistDoc "Win32" "notepad.exe" ?_
    have hev : load_process_whitelist wWhitelistDoc "Win32" = ["notepad.exe"] := by rfl
    rw [hev]
    exact List.mem_singleton.mpr rfl

/-- Lookup through the per-role loop of `load_text_configs`: a role whose
(first) binding in the document is a list always appears in the result,
bound to its parsed entries. -/
theorem textCfgOfRoot_lookup :
    ∀ (root : List (String × PyVal)) (role : String) (xs : List PyVal),
    root.lookup role = some (.vlist xs) →
    (textCfgOfRoot root).lookup role = some (xs.filterMap parseTextItem)
  | [], role, xs, h => by cases h
  | (k, v) :: rest, role, xs, h => by
      rw [List.lookup_cons] at h
      by_cases hk : (role == k) = true
      · rw [hk] at h
        obtain rfl := Option.some.inj h
        change List.lookup role
          ((k, xs.filterMap parseTextItem) :: textCfgOfRoot rest) = _
        rw [List.lookup_cons, hk]
      · rw [Bool.not_eq_true] at hk
        rw [hk] at h
        have ih := textCfgOfRoot_lookup rest role xs h
        cases v with
        | vlist ys =>
            change List.lookup role
              ((k, ys.filterMap parseTextItem) :: textCfgOfRoot rest) = _
            rw [List.lookup_cons, hk]
            exact ih
        | vint n => exact ih
        | vstr s => exact ih
        | vnone => exact ih
        | vdict l => exact ih

/-- C8: a role whose value in the `text_configs` sub-mapping is a list is
always a key of `load_text_configs`' result — bound to the parse of its
entries, hence to `[]` when every entry is malformed and skipped. -/
theorem c8_all_malformed_role_kept (m root : List (String × PyVal))
    (role : String) (xs : List PyVal) (hne : m.isEmpty = false)
    (hm : m.lookup "text_configs" = some (.vdict root))
    (hr : root.lookup role = some (.vlist xs)) :
    (load_text_configs (some (.vdict m))).lookup role = some (xs.filterMap parseTextItem)
    ∧ ((∀ x ∈ xs, parseTextItem x = none) →
        (load_text_configs (some (.vdict m))).lookup role = some []) := by
  have hload : load_text_configs (some (.vdict m)) = textCfgOfRoot root := by
    simp only [load_text_configs]
    rw [if_neg (by simp [hne]), hm]
  refine ⟨by rw [hload]; exact textCfgOfRoot_lookup root role xs hr, ?_⟩
  intro hall
  have hnil : xs.filterMap parseTextItem = [] := List.filterMap_eq_nil_iff.mpr hall
  rw [hload, textCfgOfRoot_lookup root role xs hr, hnil]

/-- Witness for C8 at a concrete input: a role whose two entries are both
malformed (a bare string, and a dict with no usable fields) still appears
in the result, mapped to the empty list. -/
theorem c8_all_malformed_role_kept_witness :
    (load_text_configs (some (.vdict
      [("text_configs", .vdict [("luna", .vlist [.vstr "bad", .vdict []])])]))).lookup "luna"
      = some [] := by
  refine (c8_all_malformed_role_kept
    [("text_configs", .vdict [("luna", .vlist [.vstr "bad", .vdict []])])]
    [("luna", .vlist [.vstr "bad", .vdict []])] "luna" [.vstr "bad", .vdict []]
    (by rfl) (by rfl) (by rfl)).2 ?_
  intro x hx
  rcases List.mem_cons.mp hx with h1 | h2
  · rw [h1]
    rfl
  · rw [List.mem_singleton.mp h2]
    rfl

end ConfigLoader
